import Mathlib

/-!
Verification of the glikoz core (`src/glikoz/dataframe_handler.py` and
`src/glikoz/report_creator.py`): a shallow embedding of the Diaguard CSV
backup parser, the DataFrameHandler filter layer and the ReportCreator
statistics, with theorems settling the specification's claims.

Modelling conventions, fixed once for the whole file:
* a physical line is a `List Char`; Python string primitives (`strip`,
  `split`, `lower`, the `re.sub` quote-stripping) are re-implemented on
  `List Char` so every definition evaluates inside the kernel;
* Python `float` values are modelled as exact rationals `ℚ` (the backup's
  numeric fields are plain decimal literals);
* a Python runtime error during parsing (IndexError, KeyError, ValueError,
  an unparseable date) makes the modelled function return `none`;
* a pandas missing value (`None`/`NaN`) is `Option.none`; comparisons
  against a missing value are `false`, as in pandas;
* a pandas timestamp is an integer: `YYYY-MM-DD HH:MM[:SS]` is mapped by a
  strictly order-preserving encoding into seconds, and `Timedelta(x, 'd')`
  is `x * 86400` in the same unit;
* a pandas standard deviation (`ddof = 1`) is represented by its square,
  the sample variance, an `Option ℚ` whose `none` is the NaN that
  `Series.std` yields on groups of size at most one; `fillna(0)` is
  `Option.getD 0` (legitimate since `sqrt 0 = 0` and `sqrt NaN = NaN`).
-/

attribute [local semireducible] Rat.add Rat.mul Rat.sub Rat.inv

namespace Glikoz

/-- Whitespace characters removed by Python `str.strip()`. -/
def isPyWS (c : Char) : Bool :=
  c = ' ' || c = '\t' || c = '\n' || c = '\r' || c = '\x0b' || c = '\x0c'

/-- Python `str.strip()`: drop leading and trailing whitespace. -/
def pyStrip (s : List Char) : List Char :=
  ((s.dropWhile isPyWS).reverse.dropWhile isPyWS).reverse

/-- Python `str.split(sep)` for a one-character separator: never empty, an
empty input yields `[[]]`. -/
def splitOnChar (sep : Char) : List Char → List (List Char)
  | [] => [[]]
  | c :: rest =>
    let r := splitOnChar sep rest
    if c = sep then [] :: r
    else
      match r with
      | [] => [[c]]
      | g :: gs => (c :: g) :: gs

/-- Drop one leading double quote if present. -/
def dropLeadQuote : List Char → List Char
  | '"' :: rest => rest
  | s => s

/-- The parser's `clear_chars`: `re.sub(r"^\"|\"$", '', s)` removes one
leading and one trailing double quote. -/
def clear_chars (s : List Char) : List Char :=
  (dropLeadQuote (dropLeadQuote s).reverse).reverse

/-- `DiaguardCSVParser.format_line`: split a line on semicolons, strip the
outer quotes of every field, and return (record type, remaining fields). -/
def format_line (line : List Char) : List Char × List (List Char) :=
  match (splitOnChar ';' line).map clear_chars with
  | [] => ([], [])
  | h :: t => (h, t)

/-- Value of a digit string (most significant first). -/
def digitsToNat (s : List Char) : ℕ :=
  s.foldl (fun n c => 10 * n + (c.toNat - 48)) 0

/-- A nonempty all-digit string, or `none`. -/
def pyDigits? (s : List Char) : Option ℕ :=
  if s ≠ [] ∧ s.all Char.isDigit then some (digitsToNat s) else none

/-- Python `float(s)` on the plain decimal literals Diaguard backups contain:
an optional sign, digits, an optional fractional part, at least one digit in
all.  Any other string is a `ValueError`, hence `none`. -/
def pyFloat? (s : List Char) : Option ℚ :=
  let signed : ℚ × List Char :=
    match s with
    | '-' :: rest => (-1, rest)
    | '+' :: rest => (1, rest)
    | _ => (1, s)
  match splitOnChar '.' signed.2 with
  | [ip] =>
    if ip ≠ [] ∧ ip.all Char.isDigit then some (signed.1 * digitsToNat ip) else none
  | [ip, fp] =>
    if (ip ≠ [] ∨ fp ≠ []) ∧ ip.all Char.isDigit ∧ fp.all Char.isDigit then
      some (signed.1 * ((digitsToNat ip : ℚ) + (digitsToNat fp : ℚ) / (10 : ℚ) ^ fp.length))
    else none
  | _ => none

/-- Python `int(float(s))` truncates toward zero. -/
def truncQ (q : ℚ) : ℤ :=
  if 0 ≤ q.num then ((q.num.toNat / q.den : ℕ) : ℤ) else -(((-q.num).toNat / q.den : ℕ) : ℤ)

/-- Python `str.lower()` on the ASCII food names of a backup. -/
def pyLower (s : List Char) : List Char :=
  s.map fun c => if 'A' ≤ c ∧ c ≤ 'Z' then Char.ofNat (c.toNat + 32) else c

/-- Order-preserving integer encoding of a calendar timestamp, in seconds:
the bases 13 and 32 exceed every month and day value, so encodings compare
exactly as the timestamps do, and hour-of-day and day fields are recovered
by division. -/
def encodeTs (y m d h mi s : ℕ) : ℤ :=
  ((((((y * 13 + m) * 32 + d) * 24 + h) * 60 + mi) * 60 + s : ℕ) : ℤ)

/-- The `pd.to_datetime` call on an entry's date field, for the backup's
fixed `YYYY-MM-DD HH:MM[:SS]` pattern (the only pattern the exports and the
repository's tests use); anything else is a parse failure. -/
def parseDate? (s : List Char) : Option ℤ :=
  match splitOnChar ' ' s with
  | [d, t] =>
    match splitOnChar '-' d, splitOnChar ':' t with
    | [ys, ms, ds], [hs, mis] =>
      match pyDigits? ys, pyDigits? ms, pyDigits? ds, pyDigits? hs, pyDigits? mis with
      | some y, some m, some dd, some h, some mi =>
        if 1 ≤ m ∧ m ≤ 12 ∧ 1 ≤ dd ∧ dd ≤ 31 ∧ h ≤ 23 ∧ mi ≤ 59 then
          some (encodeTs y m dd h mi 0)
        else none
      | _, _, _, _, _ => none
    | [ys, ms, ds], [hs, mis, ss] =>
      match pyDigits? ys, pyDigits? ms, pyDigits? ds, pyDigits? hs, pyDigits? mis,
          pyDigits? ss with
      | some y, some m, some dd, some h, some mi, some sec =>
        if 1 ≤ m ∧ m ≤ 12 ∧ 1 ≤ dd ∧ dd ≤ 31 ∧ h ≤ 23 ∧ mi ≤ 59 ∧ sec ≤ 59 then
          some (encodeTs y m dd h mi sec)
        else none
      | _, _, _, _, _, _ => none
    | _, _ => none
  | _ => none

/-- A Python `dict` keyed by strings with float values, in insertion order:
both the food catalog and an entry's meal mapping. -/
abbrev Dict := List (List Char × ℚ)

/-- Python `d[k] = v`: replace in place when the key exists (keeping its
position, as Python dicts do), append otherwise. -/
def dictUpsert (k : List Char) (v : ℚ) : Dict → Dict
  | [] => [(k, v)]
  | (k1, v1) :: rest => if k1 = k then (k, v) :: rest else (k1, v1) :: dictUpsert k v rest

/-- Python `d[k]`, as an `Option` (KeyError is `none`). -/
def dictGet? (k : List Char) : Dict → Option ℚ
  | [] => none
  | (k1, v1) :: rest => if k1 = k then some v1 else dictGet? k rest

/-- Sum of a dict's values: `sum(m.values())`. -/
def dictValuesSum (d : Dict) : ℚ :=
  (d.map Prod.snd).sum

/-- A normalized line: record type and fields, as `format_line` returns. -/
abbrev Line := List Char × List (List Char)

/-- The in-progress state of `process_entry`'s scan loop: the locals
`glucose, insulin, activity, hba1c, meal, tags` of the Python function. -/
structure EntrySt where
  glucose : Option ℤ
  insulin : List ℤ
  activity : ℤ
  hba1c : Option ℚ
  meal : Dict
  tags : List (List Char)
deriving DecidableEq

/-- The loop's initial state: `glucose, activity, hba1c = None, 0, None`,
`insulin = (0,)*3`, empty meal and tags. -/
def initSt : EntrySt :=
  { glucose := none, insulin := [0, 0, 0], activity := 0, hba1c := none,
    meal := [], tags := [] }

/-- Map `pyFloat?` over a list of fields, failing if any fails (the mapped
`float` conversions of an insulin measurement line). -/
def pyFloatAll : List (List Char) → Option (List ℚ)
  | [] => some []
  | s :: rest =>
    match pyFloat? s, pyFloatAll rest with
    | some q, some qs => some (q :: qs)
    | _, _ => none

/-- One iteration of `process_entry`'s while loop on one line:
`some (some st)` consumes the line yielding the new state, `some none` is
the `break` on an unrecognized record type (the line is not consumed), and
`none` is a Python error (IndexError on a missing field, ValueError from
`float`, KeyError from an unknown food). -/
def entryStep (foods : Dict) (line : Line) (st : EntrySt) : Option (Option EntrySt) :=
  let field := line.1
  let values := line.2
  if field = ("measurement".toList) then
    match values with
    | [] => none
    | category :: vs =>
      if category = ("bloodsugar".toList) then
        match vs with
        | v1 :: _ =>
          match pyFloat? v1 with
          | some q => some (some { st with glucose := some (truncQ q) })
          | none => none
        | [] => none
      else if category = ("insulin".toList) then
        match pyFloatAll (vs.take 3) with
        | some qs => some (some { st with insulin := qs.map truncQ })
        | none => none
      else if category = ("meal".toList) then
        match vs with
        | v1 :: _ =>
          match pyFloat? v1 with
          | some q => some (some { st with meal := dictUpsert ("carbs".toList) q st.meal })
          | none => none
        | [] => none
      else if category = ("activity".toList) then
        match vs with
        | v1 :: _ =>
          match pyFloat? v1 with
          | some q => some (some { st with activity := truncQ q })
          | none => none
        | [] => none
      else if category = ("hba1c".toList) then
        match vs with
        | v1 :: _ =>
          match pyFloat? v1 with
          | some q => some (some { st with hba1c := some q })
          | none => none
        | [] => none
      else
        some (some st)
  else if field = ("foodEaten".toList) then
    match values with
    | v0 :: v1 :: _ =>
      match pyFloat? v1 with
      | some w =>
        match dictGet? (pyLower v0) foods with
        | some r =>
          some (some { st with meal := dictUpsert (pyLower v0) (w * (r / 100)) st.meal })
        | none => none
      | none => none
    | _ => none
  else if field = ("entryTag".toList) then
    match values with
    | v0 :: _ => some (some { st with tags := st.tags ++ [v0] })
    | [] => none
  else
    some none

/-- `DiaguardCSVParser.process_entry`'s while loop: consume sub-record
lines while they are recognized, returning the final state and the number
of lines consumed (the cursor advance). -/
def process_entry (foods : Dict) : List Line → EntrySt → Option (EntrySt × ℕ)
  | [], st => some (st, 0)
  | line :: rest, st =>
    match entryStep foods line st with
    | none => none
    | some none => some (st, 0)
    | some (some st1) =>
      match process_entry foods rest st1 with
      | none => none
      | some (st2, n) => some (st2, n + 1)

/-- A row of the `entries` list that `process_entry` appends: the dict of
source lines 118-129, before the DataFrame's derived columns. -/
structure RawEntry where
  date : List Char
  glucose : Option ℤ
  bolus_insulin : ℤ
  correction_insulin : ℤ
  basal_insulin : ℤ
  activity : ℤ
  hba1c : Option ℚ
  meal : Dict
  tags : List (List Char)
  comments : List Char
deriving DecidableEq

/-- Finalize an entry: the appended dict reads `insulin[0]`, `insulin[1]`,
`insulin[2]`, an IndexError (hence `none`) when an insulin measurement line
carried fewer than three values. -/
def mkRawEntry (date comments : List Char) (st : EntrySt) : Option RawEntry :=
  match st.insulin.get? 0, st.insulin.get? 1, st.insulin.get? 2 with
  | some b, some c, some a =>
    some { date := date, glucose := st.glucose, bolus_insulin := b,
           correction_insulin := c, basal_insulin := a, activity := st.activity,
           hba1c := st.hba1c, meal := st.meal, tags := st.tags, comments := comments }
  | _, _, _ => none

/-- `DiaguardCSVParser.process_lines`: the top-level cursor loop.  A `food`
line registers (or overwrites) `fields[0].lower()` with `float(fields[-1])`
in the catalog; an `entry` line runs the sub-record scan from the next line
and appends one entry; anything else advances by one.  Returns the final
food catalog and the entries list. -/
def process_lines (foods : Dict) : List Line → Option (Dict × List RawEntry)
  | [] => some (foods, [])
  | (name, content) :: rest =>
    if name = ("food".toList) then
      match content with
      | [] => none
      | v0 :: cs =>
        match pyFloat? ((v0 :: cs).getLast (List.cons_ne_nil v0 cs)) with
        | some q => process_lines (dictUpsert (pyLower v0) q foods) rest
        | none => none
    else if name = ("entry".toList) then
      match content with
      | date :: comments :: _ =>
        match process_entry foods rest initSt with
        | none => none
        | some (st, n) =>
          match mkRawEntry date comments st with
          | none => none
          | some e =>
            match process_lines foods (rest.drop n) with
            | none => none
            | some (foods1, es) => some (foods1, e :: es)
      | _ => none
    else
      process_lines foods rest
termination_by l => l.length
decreasing_by
  · simp
  · simp [List.length_drop]
    omega
  · simp

/-- A row of the parsed DataFrame, after `init_df` adds the derived
columns `fast_insulin`, `total_insulin` and `carbs` and converts `date`. -/
structure Entry where
  date : ℤ
  glucose : Option ℤ
  bolus_insulin : ℤ
  correction_insulin : ℤ
  basal_insulin : ℤ
  fast_insulin : ℤ
  total_insulin : ℤ
  activity : ℤ
  hba1c : Option ℚ
  meal : Dict
  carbs : ℚ
  tags : List (List Char)
  comments : List Char
deriving DecidableEq

/-- One row of `init_df`'s column computations: `pd.to_datetime` on the
date (failure aborts parsing), `fast_insulin = bolus + correction`,
`total_insulin = fast + basal`, `carbs = sum(meal.values())`. -/
def finalizeEntry (e : RawEntry) : Option Entry :=
  match parseDate? e.date with
  | none => none
  | some ts =>
    some { date := ts, glucose := e.glucose, bolus_insulin := e.bolus_insulin,
           correction_insulin := e.correction_insulin, basal_insulin := e.basal_insulin,
           fast_insulin := e.bolus_insulin + e.correction_insulin,
           total_insulin := e.bolus_insulin + e.correction_insulin + e.basal_insulin,
           activity := e.activity, hba1c := e.hba1c, meal := e.meal,
           carbs := dictValuesSum e.meal, tags := e.tags, comments := e.comments }

/-- `finalizeEntry` over the whole entries list, failing if any row fails. -/
def finalizeAll : List RawEntry → Option (List Entry)
  | [] => some []
  | e :: rest =>
    match finalizeEntry e, finalizeAll rest with
    | some e1, some rest1 => some (e1 :: rest1)
    | _, _ => none

/-- The `sort_values(by="date", ascending=True)` comparison. -/
def dateLe (a b : Entry) : Prop :=
  a.date ≤ b.date

instance : DecidableRel dateLe :=
  fun a b => Int.decLe a.date b.date

instance : IsTotal Entry dateLe :=
  ⟨fun a b => Int.le_total a.date b.date⟩

instance : IsTrans Entry dateLe :=
  ⟨fun _ _ _ h1 h2 => Int.le_trans h1 h2⟩

/-- `DiaguardCSVParser.init_df`: build the DataFrame from the entries list,
sorted ascending by date (`sort_values` is a stable sort; insertion sort is
the stable sort of the model).  On an empty entries list `pd.DataFrame([])`
has no columns at all, so the very next `self.df["date"]` raises KeyError:
the model returns `none`. -/
def init_df (entries : List RawEntry) : Option (List Entry) :=
  if entries = [] then none
  else
    match finalizeAll entries with
    | none => none
    | some es => some (List.insertionSort dateLe es)

/-- `DiaguardCSVParser.parse_csv` on the backup's text lines: strip and
normalize every line, run the cursor loop, build the sorted DataFrame. -/
def parse_csv (input : List String) : Option (List Entry) :=
  match process_lines [] (input.map fun ln => format_line (pyStrip ln.data)) with
  | none => none
  | some (_, entries) => init_df entries

/-- The record type of a raw input line, as `process_lines` sees it. -/
def lineType (ln : String) : List Char :=
  (format_line (pyStrip ln.data)).1

/-- `pd.Timedelta(x, 'd')` in the timestamp encoding's seconds. -/
def Timedelta_days (x : ℤ) : ℤ :=
  x * 86400

/-- `Series.max()` of an integer column: `none` on an empty series (pandas
yields NaN there, and every comparison against it is `False`). -/
def series_max? : List ℤ → Option ℤ
  | [] => none
  | t :: rest =>
    match series_max? rest with
    | none => some t
    | some m => some (max t m)

/-- `DataFrameHandler.last_x_days`: keep rows with
`date > df["date"].max() + Timedelta(-x, 'd')`. -/
def last_x_days (df : List Entry) (x : ℤ) : List Entry :=
  match series_max? (df.map Entry.date) with
  | none => []
  | some m => df.filter fun e => decide (m + Timedelta_days (-x) < e.date)

/-- `DataFrameHandler.col_lims`: keep rows whose value in the chosen numeric
column satisfies `lower_bound ≤ value < upper_bound`; a missing value (NaN)
satisfies neither comparison, as in pandas. -/
def col_lims (df : List Entry) (column : Entry → Option ℚ) (lower_bound upper_bound : ℚ) :
    List Entry :=
  df.filter fun e =>
    (match column e with
     | some v => decide (lower_bound ≤ v)
     | none => false) &&
    (match column e with
     | some v => decide (v < upper_bound)
     | none => false)

/-- The `glucose` column as a numeric pandas column (missing = NaN). -/
def glucose_col (e : Entry) : Option ℚ :=
  e.glucose.map fun g => (g : ℚ)

/-- `df["date"].dt.hour` under the timestamp encoding. -/
def hourOf (t : ℤ) : ℤ :=
  Int.emod (Int.fdiv t 3600) 24

/-- `df["date"].dt.date` under the timestamp encoding: the day index. -/
def dayOf (t : ℤ) : ℤ :=
  Int.fdiv t 86400

/-- A pandas `groupby` over an integer key: the sorted distinct keys, each
with the rows carrying it in their original order. -/
def groupby {α : Type} [DecidableEq α] (key : α → ℤ) (l : List α) : List (ℤ × List α) :=
  (List.insertionSort (fun a b : ℤ => a ≤ b) ((l.map key).dedup)).map fun k =>
    (k, l.filter fun e => decide (key e = k))

/-- `Series.mean()` of a series with no missing values. -/
def meanQ (l : List ℚ) : ℚ :=
  l.sum / (l.length : ℚ)

/-- `Series.std()` (pandas default `ddof = 1`), represented by its square,
the sample variance: `none` is the NaN a group of size at most one yields. -/
def sampleVar? (l : List ℚ) : Option ℚ :=
  if l.length ≤ 1 then none
  else some ((l.map fun x => (x - meanQ l) ^ 2).sum / ((l.length : ℚ) - 1))

/-- The defined glucose values of a view: `df["glucose"].dropna()`. -/
def definedGlucose (df : List Entry) : List ℚ :=
  df.filterMap fun e => e.glucose.map fun g => (g : ℚ)

/-- The statistics engine's HbA1c estimate over a view (source lines 59-64):
`(glucose.mean() + 46.7) / 28.7` over the defined glucose values, `None`
when there are none. -/
def estimated_hba1c (df : List Entry) : Option ℚ :=
  if definedGlucose df = [] then none
  else some ((meanQ (definedGlucose df) + 467 / 10) / (287 / 10))

/-- `ReportCreator.save_hba1c`: filter to the most recent 90 days, then
estimate. -/
def save_hba1c (df : List Entry) : Option ℚ :=
  estimated_hba1c (last_x_days df 90)

/-- The per-day sums `groupby_day()["fast_insulin"].sum()`. -/
def daily_fast_insulin_sums (df : List Entry) : List ℚ :=
  (groupby (fun e => dayOf e.date) df).map fun g =>
    (g.2.map fun e => (e.fast_insulin : ℚ)).sum

/-- `ReportCreator.save_fast_insulin_use`: `(0, 0)` for an empty frame,
otherwise mean and standard deviation (represented by the sample variance,
`none` = NaN) of the per-day fast-insulin sums. -/
def save_fast_insulin_use (df : List Entry) : ℚ × Option ℚ :=
  if df = [] then (0, some 0)
  else (meanQ (daily_fast_insulin_sums df), sampleVar? (daily_fast_insulin_sums df))

/-- The rows `df[["date", "glucose"]].dropna()` of
`save_mean_glucose_by_hour`. -/
def glucoseRows (df : List Entry) : List (ℤ × ℚ) :=
  df.filterMap fun e => e.glucose.map fun g => (e.date, (g : ℚ))

/-- `ReportCreator.save_mean_glucose_by_hour`: empty series for an empty
frame; otherwise one `(hour, mean, std)` element per hour key the groupby
yields, the NaN standard deviation of a singleton group replaced by 0 by
`.fillna(0)` (the group means are over nonempty NaN-free groups, so their
`.fillna(0)` changes nothing). -/
def save_mean_glucose_by_hour (df : List Entry) : List (ℤ × ℚ × ℚ) :=
  let rows := glucoseRows df
  if rows = [] then []
  else
    (groupby (fun r => hourOf r.1) rows).map fun g =>
      (g.1, meanQ (g.2.map Prod.snd), (sampleVar? (g.2.map Prod.snd)).getD 0)

/-- The most recent catalog value a scan of the given lines registers for
food name `k`: the value of the last `food` line whose lowercased first
field is `k` (specification function for the catalog's evolution). -/
def lastFoodVal (k : List Char) : List Line → Option ℚ
  | [] => none
  | (name, content) :: rest =>
    match lastFoodVal k rest with
    | some v => some v
    | none =>
      if name = ("food".toList) then
        match content with
        | [] => none
        | v0 :: cs =>
          if pyLower v0 = k then pyFloat? ((v0 :: cs).getLast (List.cons_ne_nil v0 cs))
          else none
      else none

/-- A normalized line whose record type is `entry`. -/
def isEntryLine (l : Line) : Bool :=
  decide (l.1 = ("entry".toList))

/-! ## Concrete inputs used by the scenario theorems and witnesses -/

/-- The specification's four-line scenario input. -/
def c3input : List String :=
  ["food;\"apple\";;\"apple\";\"14\"",
   "entry;\"2024-01-01 08:00\";\"\"",
   "measurement;\"bloodsugar\";\"95.7\"",
   "foodEaten;\"apple\";\"200\""]

/-- The one entry the scenario input parses to. -/
def c3entry : Entry :=
  { date := encodeTs 2024 1 1 8 0 0, glucose := some 95,
    bolus_insulin := 0, correction_insulin := 0, basal_insulin := 0,
    fast_insulin := 0, total_insulin := 0, activity := 0, hba1c := none,
    meal := [("apple".toList, 28)], carbs := 28, tags := [], comments := [] }

/-- An input registering the food name `apple` twice with different values,
then consuming it. -/
def c9input : List String :=
  ["food;\"apple\";;\"apple\";\"14\"",
   "food;\"apple\";;\"apple\";\"20\"",
   "entry;\"2024-01-01 08:00\";\"\"",
   "foodEaten;\"apple\";\"100\""]

/-- The normalized lines of `c9input`. -/
def c9lines : List Line :=
  c9input.map fun ln => format_line (pyStrip ln.data)

/-- The raw entry the `c9input` backup produces: the `foodEaten` lookup sees
the overwritten catalog value 20, so the meal carries 100 g × 20/100 = 20. -/
def c9raw : RawEntry :=
  { date := "2024-01-01 08:00".toList, glucose := none, bolus_insulin := 0,
    correction_insulin := 0, basal_insulin := 0, activity := 0, hba1c := none,
    meal := [("apple".toList, 20)], tags := [], comments := [] }

/-- A view row: glucose 100 mg/dL recorded at hour 8 of 2024-01-01. -/
def entryGlucose100 : Entry :=
  { date := encodeTs 2024 1 1 8 0 0, glucose := some 100,
    bolus_insulin := 0, correction_insulin := 0, basal_insulin := 0,
    fast_insulin := 0, total_insulin := 0, activity := 0, hba1c := none,
    meal := [], carbs := 0, tags := [], comments := [] }

/-- A view row: glucose 120 mg/dL recorded at hour 9 of 2024-03-05. -/
def entryGlucose120 : Entry :=
  { date := encodeTs 2024 3 5 9 15 0, glucose := some 120,
    bolus_insulin := 0, correction_insulin := 0, basal_insulin := 0,
    fast_insulin := 0, total_insulin := 0, activity := 0, hba1c := none,
    meal := [], carbs := 0, tags := [], comments := [] }

/-- A view row with no glucose measurement, on the same day as
`entryGlucose100` (hour 9), with fast insulin 3. -/
def entryNoGlucose : Entry :=
  { date := encodeTs 2024 1 1 9 30 0, glucose := none,
    bolus_insulin := 2, correction_insulin := 1, basal_insulin := 5,
    fast_insulin := 3, total_insulin := 8, activity := 0, hba1c := none,
    meal := [], carbs := 0, tags := [], comments := [] }

/-! ## Helper lemmas -/

theorem dictGet?_dictUpsert_self (k : List Char) (v : ℚ) (d : Dict) :
    dictGet? k (dictUpsert k v d) = some v := by
  induction d with
  | nil => simp [dictUpsert, dictGet?]
  | cons kv rest ih =>
    obtain ⟨k1, v1⟩ := kv
    by_cases hk : k1 = k
    · simp [dictUpsert, dictGet?, hk]
    · simp [dictUpsert, dictGet?, hk, ih]

theorem dictGet?_dictUpsert_ne (k k1 : List Char) (v : ℚ) (d : Dict) (hk : k1 ≠ k) :
    dictGet? k (dictUpsert k1 v d) = dictGet? k d := by
  induction d with
  | nil => simp [dictUpsert, dictGet?, hk]
  | cons kv rest ih =>
    obtain ⟨k2, v2⟩ := kv
    by_cases h2 : k2 = k1
    · subst h2
      simp [dictUpsert, dictGet?, hk]
    · by_cases h3 : k2 = k
      · subst h3
        have hk2 : ¬k2 = k1 := h2
        simp [dictUpsert, dictGet?, hk2]
      · simp [dictUpsert, dictGet?, h2, h3, ih]

theorem entryStep_consumed_type {foods : Dict} {line : Line} {st st1 : EntrySt}
    (h : entryStep foods line st = some (some st1)) :
    line.1 = ("measurement".toList) ∨ line.1 = ("foodEaten".toList) ∨
      line.1 = ("entryTag".toList) := by
  by_cases h1 : line.1 = ("measurement".toList)
  · exact Or.inl h1
  by_cases h2 : line.1 = ("foodEaten".toList)
  · exact Or.inr (Or.inl h2)
  by_cases h3 : line.1 = ("entryTag".toList)
  · exact Or.inr (Or.inr h3)
  exfalso
  simp only [entryStep, h1, h2, h3, if_false] at h
  simp at h

theorem process_entry_consumed (foods : Dict) (lines : List Line) :
    ∀ {st st1 : EntrySt} {n : ℕ}, process_entry foods lines st = some (st1, n) →
      n ≤ lines.length ∧
        ∀ l ∈ lines.take n, l.1 = ("measurement".toList) ∨ l.1 = ("foodEaten".toList) ∨
          l.1 = ("entryTag".toList) := by
  induction lines with
  | nil =>
    intro st st1 n h
    simp only [process_entry, Option.some.injEq, Prod.mk.injEq] at h
    obtain ⟨-, rfl⟩ := h
    simp
  | cons line rest ih =>
    intro st st1 n h
    simp only [process_entry] at h
    split at h
    · exact absurd h (by simp)
    · simp only [Option.some.injEq, Prod.mk.injEq] at h
      obtain ⟨-, rfl⟩ := h
      simp
    · rename_i st2 heq
      split at h
      · exact absurd h (by simp)
      · rename_i st3 m hp
        simp only [Option.some.injEq, Prod.mk.injEq] at h
        obtain ⟨-, rfl⟩ := h
        obtain ⟨hm, hmem⟩ := ih hp
        refine ⟨by simp; omega, ?_⟩
        intro l hl
        simp only [List.take_succ_cons, List.mem_cons] at hl
        rcases hl with rfl | hl
        · exact entryStep_consumed_type heq
        · exact hmem l hl

theorem consumed_not_entry {foods : Dict} {lines : List Line} {st st1 : EntrySt} {n : ℕ}
    (h : process_entry foods lines st = some (st1, n)) :
    (lines.take n).countP isEntryLine = 0 := by
  refine List.countP_eq_zero.mpr ?_
  intro l hl
  rcases (process_entry_consumed foods lines h).2 l hl with h1 | h1 | h1 <;>
    simp [isEntryLine, h1]

theorem countP_take_add_drop {α : Type} (p : α → Bool) (l : List α) (n : ℕ) :
    l.countP p = (l.take n).countP p + (l.drop n).countP p := by
  rw [← List.countP_append, List.take_append_drop]

theorem process_lines_count (foods : Dict) (ls : List Line) :
    ∀ {foods1 : Dict} {es : List RawEntry}, process_lines foods ls = some (foods1, es) →
      es.length = ls.countP isEntryLine := by
  induction foods, ls using process_lines.induct with
  | case1 foods =>
    intro foods1 es h
    simp only [process_lines, Option.some.injEq, Prod.mk.injEq] at h
    obtain ⟨-, rfl⟩ := h
    simp
  | case2 foods rest =>
    intro foods1 es h
    simp only [process_lines] at h
    simp at h
  | case3 foods rest g gs q hq ih =>
    intro foods1 es h
    simp only [process_lines, hq] at h
    rw [List.countP_cons_of_neg _ _ (by simp [isEntryLine])]
    exact ih h
  | case4 foods rest g gs hq =>
    intro foods1 es h
    simp only [process_lines, hq] at h
    simp at h
  | case5 foods rest v0 v1 tail hpe hne =>
    intro foods1 es h
    simp only [process_lines, if_neg hne, hpe] at h
    simp at h
  | case6 foods rest v0 v1 tail st2 n hpe hmk hne =>
    intro foods1 es h
    simp only [process_lines, if_neg hne, hpe, hmk] at h
    simp at h
  | case7 foods rest v0 v1 tail st2 n hpe e hmk hrec hne ih =>
    intro foods1 es h
    simp only [process_lines, if_neg hne, hpe, hmk, hrec] at h
    simp at h
  | case8 foods rest v0 v1 tail st2 n hpe e hmk foods2 es0 hrec hne ih =>
    intro foods1 es h
    simp only [process_lines, if_neg hne, hpe, hmk, hrec, Option.some.injEq,
      Prod.mk.injEq] at h
    obtain ⟨-, rfl⟩ := h
    rw [List.countP_cons_of_pos _ _ (by simp [isEntryLine])]
    rw [countP_take_add_drop isEntryLine rest n, consumed_not_entry hpe]
    have := ih hrec
    simp [this]
  | case9 foods content rest hcontent hne =>
    intro foods1 es h
    rcases content with _ | ⟨d, _ | ⟨c, t⟩⟩
    · simp only [process_lines, if_neg hne] at h
      simp at h
    · simp only [process_lines, if_neg hne] at h
      simp at h
    · exact absurd rfl (by intro hcon; exact hcontent d c t hcon)
  | case10 foods name content rest hnf hne2 ih =>
    intro foods1 es h
    have hf : ¬name = ['f', 'o', 'o', 'd'] := by simpa using hnf
    have he : ¬name = ['e', 'n', 't', 'r', 'y'] := by simpa using hne2
    rw [process_lines.eq_def] at h
    simp [hf, he] at h
    rw [List.countP_cons_of_neg _ _ (by simp [isEntryLine, he])]
    exact ih h

theorem some_or_eq {α : Type} (a : α) (o : Option α) : (some a).or o = some a := rfl

theorem lastFoodVal_cons_not_food (k : List Char) (l : Line) (ls : List Line)
    (hl : l.1 ≠ ("food".toList)) : lastFoodVal k (l :: ls) = lastFoodVal k ls := by
  obtain ⟨name, content⟩ := l
  simp only [lastFoodVal]
  cases lastFoodVal k ls with
  | some v => rfl
  | none => simp only [if_neg hl]

theorem lastFoodVal_append (k : List Char) (l1 l2 : List Line) :
    lastFoodVal k (l1 ++ l2) = (lastFoodVal k l2).or (lastFoodVal k l1) := by
  induction l1 with
  | nil => simp [lastFoodVal, Option.or_none]
  | cons l rest ih =>
    obtain ⟨name, content⟩ := l
    simp only [List.cons_append, lastFoodVal, List.append_eq]
    rw [ih]
    cases hv : lastFoodVal k l2 with
    | some v => rfl
    | none => rfl

theorem lastFoodVal_eq_none (k : List Char) (ls : List Line)
    (h : ∀ l ∈ ls, l.1 ≠ ("food".toList)) : lastFoodVal k ls = none := by
  induction ls with
  | nil => rfl
  | cons l rest ih =>
    rw [lastFoodVal_cons_not_food k l rest (h l (by simp))]
    exact ih fun x hx => h x (by simp [hx])

theorem consumed_no_food {foods : Dict} {lines : List Line} {st st1 : EntrySt} {n : ℕ}
    (h : process_entry foods lines st = some (st1, n)) :
    ∀ l ∈ lines.take n, l.1 ≠ ("food".toList) := by
  intro l hl
  rcases (process_entry_consumed foods lines h).2 l hl with h1 | h1 | h1 <;>
    simp [h1]

theorem process_lines_catalog (foods : Dict) (ls : List Line) :
    ∀ {p : Dict × List RawEntry}, process_lines foods ls = some p →
      ∀ k, dictGet? k p.1 = (lastFoodVal k ls).or (dictGet? k foods) := by
  induction foods, ls using process_lines.induct with
  | case1 foods =>
    intro p h k
    simp only [process_lines, Option.some.injEq] at h
    subst h
    simp [lastFoodVal, Option.none_or]
  | case2 foods rest =>
    intro p h k
    simp only [process_lines] at h
    simp at h
  | case3 foods rest g gs q hq ih =>
    intro p h k
    simp only [process_lines, hq] at h
    rw [ih h k]
    simp only [lastFoodVal]
    cases hv : lastFoodVal k rest with
    | some v => rfl
    | none =>
      simp only [Option.none_or]
      by_cases hk : pyLower g = k
      · subst hk
        rw [dictGet?_dictUpsert_self]
        simp [hq, some_or_eq]
      · rw [dictGet?_dictUpsert_ne _ _ _ _ hk]
        simp [hk, Option.none_or]
  | case4 foods rest g gs hq =>
    intro p h k
    simp only [process_lines, hq] at h
    simp at h
  | case5 foods rest v0 v1 tail hpe hne =>
    intro p h k
    simp only [process_lines, if_neg hne, hpe] at h
    simp at h
  | case6 foods rest v0 v1 tail st2 n hpe hmk hne =>
    intro p h k
    simp only [process_lines, if_neg hne, hpe, hmk] at h
    simp at h
  | case7 foods rest v0 v1 tail st2 n hpe e hmk hrec hne ih =>
    intro p h k
    simp only [process_lines, if_neg hne, hpe, hmk, hrec] at h
    simp at h
  | case8 foods rest v0 v1 tail st2 n hpe e hmk foods2 es0 hrec hne ih =>
    intro p h k
    simp only [process_lines, if_neg hne, hpe, hmk, hrec] at h
    have hp : (foods2, e :: es0) = p := Option.some.inj h
    subst hp
    have hk := ih hrec k
    simp only at hk
    rw [hk]
    have hrest : lastFoodVal k rest = lastFoodVal k (rest.drop n) := by
      conv_lhs => rw [← List.take_append_drop n rest]
      rw [lastFoodVal_append,
        lastFoodVal_eq_none k (rest.take n) (consumed_no_food hpe), Option.or_none]
    rw [lastFoodVal_cons_not_food k _ rest (by simp), hrest]
  | case9 foods content rest hcontent hne =>
    intro p h k
    rcases content with _ | ⟨d, _ | ⟨c, t⟩⟩
    · simp only [process_lines, if_neg hne] at h
      simp at h
    · simp only [process_lines, if_neg hne] at h
      simp at h
    · exact absurd rfl (by intro hcon; exact hcontent d c t hcon)
  | case10 foods name content rest hnf hne2 ih =>
    intro p h k
    have hf : ¬name = ['f', 'o', 'o', 'd'] := by simpa using hnf
    have he : ¬name = ['e', 'n', 't', 'r', 'y'] := by simpa using hne2
    rw [process_lines.eq_def] at h
    simp [hf, he] at h
    rw [ih h k, lastFoodVal_cons_not_food k _ rest (by simpa using hnf)]

theorem finalizeAll_length : ∀ {l : List RawEntry} {l1 : List Entry},
    finalizeAll l = some l1 → l1.length = l.length := by
  intro l
  induction l with
  | nil =>
    intro l1 h
    simp only [finalizeAll, Option.some.injEq] at h
    subst h
    rfl
  | cons e rest ih =>
    intro l1 h
    simp only [finalizeAll] at h
    split at h
    · rename_i e1 rest1 h1 h2
      obtain rfl := Option.some.inj h
      simp [ih h2]
    · exact absurd h (by simp)

theorem finalizeAll_mem : ∀ {l : List RawEntry} {l1 : List Entry},
    finalizeAll l = some l1 → ∀ e ∈ l1, ∃ r ∈ l, finalizeEntry r = some e := by
  intro l
  induction l with
  | nil =>
    intro l1 h
    simp only [finalizeAll, Option.some.injEq] at h
    subst h
    simp
  | cons r rest ih =>
    intro l1 h
    simp only [finalizeAll] at h
    split at h
    · rename_i e1 rest1 h1 h2
      obtain rfl := Option.some.inj h
      intro e he
      rcases List.mem_cons.mp he with rfl | he
      · exact ⟨r, by simp, h1⟩
      · obtain ⟨r1, hr1, hr2⟩ := ih h2 e he
        exact ⟨r1, by simp [hr1], hr2⟩
    · exact absurd h (by simp)

theorem finalizeEntry_fields {r : RawEntry} {e : Entry} (h : finalizeEntry r = some e) :
    e.fast_insulin = e.bolus_insulin + e.correction_insulin ∧
      e.total_insulin = e.fast_insulin + e.basal_insulin ∧
      e.carbs = dictValuesSum e.meal := by
  simp only [finalizeEntry] at h
  split at h
  · exact absurd h (by simp)
  · obtain rfl := Option.some.inj h
    refine ⟨rfl, rfl, rfl⟩

theorem parse_csv_inv {input : List String} {rs : List Entry}
    (h : parse_csv input = some rs) :
    ∃ foods1 raws es,
      process_lines [] (input.map fun ln => format_line (pyStrip ln.data)) =
          some (foods1, raws) ∧
        raws ≠ [] ∧ finalizeAll raws = some es ∧ rs = List.insertionSort dateLe es := by
  simp only [parse_csv] at h
  split at h
  · exact absurd h (by simp)
  · rename_i p foods1 raws hpl
    simp only [init_df] at h
    split at h
    · exact absurd h (by simp)
    · rename_i hraws
      split at h
      · exact absurd h (by simp)
      · rename_i es hes
        exact ⟨foods1, raws, es, hpl, hraws, hes, (Option.some.inj h).symm⟩

theorem series_max?_eq_none {l : List ℤ} : series_max? l = none ↔ l = [] := by
  cases l with
  | nil => simp [series_max?]
  | cons t rest =>
    simp only [series_max?]
    cases series_max? rest <;> simp

theorem series_max?_is_ub : ∀ {l : List ℤ} {m : ℤ}, series_max? l = some m →
    ∀ t ∈ l, t ≤ m := by
  intro l
  induction l with
  | nil => intro m h; simp [series_max?] at h
  | cons t rest ih =>
    intro m h u hu
    simp only [series_max?] at h
    rcases List.mem_cons.mp hu with rfl | hu
    · cases hr : series_max? rest with
      | none => rw [hr] at h; exact le_of_eq (Option.some.inj h)
      | some m1 =>
        rw [hr] at h
        obtain rfl := Option.some.inj h
        exact le_max_left u m1
    · cases hr : series_max? rest with
      | none =>
        rw [series_max?_eq_none.mp hr] at hu
        exact absurd hu (by simp)
      | some m1 =>
        rw [hr] at h
        obtain rfl := Option.some.inj h
        exact le_trans (ih hr u hu) (le_max_right t m1)

theorem dedup_const {l : List ℤ} {k : ℤ} (hne : l ≠ []) (hall : ∀ x ∈ l, x = k) :
    l.dedup = [k] := by
  induction l with
  | nil => exact absurd rfl hne
  | cons t rest ih =>
    obtain rfl : t = k := hall t (by simp)
    by_cases hrest : rest = []
    · subst hrest
      simp
    · have h1 : rest.dedup = [t] := ih hrest fun x hx => hall x (by simp [hx])
      have h2 : t ∈ rest := by
        cases rest with
        | nil => exact absurd rfl hrest
        | cons u rest1 =>
          have hu : u = t := hall u (by simp)
          simp [hu]
      rw [List.dedup_cons_of_mem h2]
      exact h1

/-! ## Claim theorems -/

/-- C1: for every input that parses without error, the produced Record Set is
sorted ascending by timestamp, and the number of Entry records equals the
number of lines whose record type is `entry` (one Entry per `entry` line). -/
theorem parse_csv_sorted_and_entry_count (input : List String) (rs : List Entry)
    (h : parse_csv input = some rs) :
    List.Sorted dateLe rs ∧
      rs.length = input.countP fun ln => isEntryLine (format_line (pyStrip ln.data)) := by
  obtain ⟨foods1, raws, es, hpl, hraws, hes, rfl⟩ := parse_csv_inv h
  refine ⟨List.sorted_insertionSort dateLe es, ?_⟩
  rw [List.length_insertionSort, finalizeAll_length hes, process_lines_count _ _ hpl,
    List.countP_map]
  rfl

unseal process_lines in
/-- Witness for C1 at the concrete scenario input. -/
theorem parse_csv_sorted_and_entry_count_example :
    List.Sorted dateLe [c3entry] ∧
      [c3entry].length =
        c3input.countP fun ln => isEntryLine (format_line (pyStrip ln.data)) :=
  parse_csv_sorted_and_entry_count c3input [c3entry] (by decide)

/-- C2: every parsed Entry satisfies
`fast_insulin = bolus_insulin + correction_insulin`,
`total_insulin = fast_insulin + basal_insulin`, and `carbs` equals the sum of
the values of its meal mapping. -/
theorem parse_csv_derived_invariants (input : List String) (rs : List Entry)
    (h : parse_csv input = some rs) :
    ∀ e ∈ rs, e.fast_insulin = e.bolus_insulin + e.correction_insulin ∧
      e.total_insulin = e.fast_insulin + e.basal_insulin ∧
      e.carbs = dictValuesSum e.meal := by
  obtain ⟨foods1, raws, es, hpl, hraws, hes, rfl⟩ := parse_csv_inv h
  intro e he
  obtain ⟨r, hr, hfin⟩ := finalizeAll_mem hes e ((List.mem_insertionSort dateLe).mp he)
  exact finalizeEntry_fields hfin

unseal process_lines in
/-- Witness for C2 at the concrete scenario input. -/
theorem parse_csv_derived_invariants_example :
    c3entry.fast_insulin = c3entry.bolus_insulin + c3entry.correction_insulin ∧
      c3entry.total_insulin = c3entry.fast_insulin + c3entry.basal_insulin ∧
      c3entry.carbs = dictValuesSum c3entry.meal :=
  parse_csv_derived_invariants c3input [c3entry] (by decide) c3entry (by simp)

unseal process_lines in
/-- C3: the four-line scenario input parses to exactly one Entry with
glucose 95 (float parse truncated toward zero), meal value 28 for apple so
carbs 28, and fast insulin 0. -/
theorem parse_csv_apple_scenario : parse_csv c3input = some [c3entry] := by decide

/-- Counterexample for C4: a view with one glucose reading at hour 8 yields a
one-element series, not a 24-element one — hours without data are omitted. -/
theorem mean_glucose_by_hour_cex :
    save_mean_glucose_by_hour [entryGlucose100] = [(8, 100, 0)] ∧
      (save_mean_glucose_by_hour [entryGlucose100]).length ≠ 24 := by decide

/-- C4 (amended): the mean-glucose-by-hour series has one element per hour of
day that carries at least one defined glucose value — an hour with no defined
glucose data is omitted from the series, not reported as zero. -/
theorem mean_glucose_by_hour_present_hours (df : List Entry) (h : ℤ) :
    h ∈ (save_mean_glucose_by_hour df).map Prod.fst ↔
      ∃ e ∈ df, e.glucose ≠ none ∧ hourOf e.date = h := by
  simp only [save_mean_glucose_by_hour]
  by_cases hrows : glucoseRows df = []
  · rw [if_pos hrows]
    simp only [List.map_nil, List.not_mem_nil, false_iff]
    rintro ⟨e, he, hg, hh⟩
    obtain ⟨g, hg2⟩ := Option.ne_none_iff_exists.mp hg
    have hmem : (e.date, (g : ℚ)) ∈ glucoseRows df := by
      rw [glucoseRows]
      exact List.mem_filterMap.mpr ⟨e, he, by rw [← hg2]; rfl⟩
    rw [hrows] at hmem
    exact absurd hmem (by simp)
  · rw [if_neg hrows]
    rw [List.map_map]
    have hfst : (Prod.fst ∘ fun g : ℤ × List (ℤ × ℚ) =>
        (g.1, meanQ (g.2.map Prod.snd), (sampleVar? (g.2.map Prod.snd)).getD 0)) =
        Prod.fst := rfl
    rw [hfst, groupby, List.map_map]
    have hfst2 : (Prod.fst ∘ fun k : ℤ =>
        (k, (glucoseRows df).filter fun e => decide ((fun r => hourOf r.1) e = k))) =
        id := rfl
    rw [hfst2, List.map_id]
    rw [List.mem_insertionSort, List.mem_dedup]
    constructor
    · intro hmem
      obtain ⟨r, hr, rfl⟩ := List.mem_map.mp hmem
      obtain ⟨e, he, hfe⟩ := List.mem_filterMap.mp (by simpa [glucoseRows] using hr)
      cases hge : e.glucose with
      | none =>
        rw [hge] at hfe
        exact absurd hfe (by simp)
      | some g =>
        rw [hge] at hfe
        obtain rfl := Option.some.inj hfe
        exact ⟨e, he, by simp [hge], rfl⟩
    · rintro ⟨e, he, hg, hh⟩
      obtain ⟨g, hg2⟩ := Option.ne_none_iff_exists.mp hg
      refine List.mem_map.mpr ⟨(e.date, (g : ℚ)), ?_, hh⟩
      rw [glucoseRows]
      exact List.mem_filterMap.mpr ⟨e, he, by rw [← hg2]; rfl⟩

/-- Counterexample for C5: the single-element hour group of this view has an
undefined (NaN) standard deviation, but the statistic reports it as the
number 0 (through `.fillna(0)`), not as a value distinct from zero. -/
theorem std_singleton_group_zero_cex :
    save_mean_glucose_by_hour [entryGlucose120] = [(9, 120, 0)] := by decide

/-- C5 (amended): standard deviations use the sample (N−1 denominator)
formula; in the daily fast-insulin statistic a single group yields an
undefined standard deviation (`none`, distinct from `some 0`), whereas the
glucose-by-hour series replaces an undefined standard deviation by 0. -/
theorem fast_insulin_std_sample_formula (df : List Entry) (hne : df ≠ []) :
    ((∀ e ∈ df, ∀ e1 ∈ df, dayOf e.date = dayOf e1.date) →
        (save_fast_insulin_use df).2 = none) ∧
      (2 ≤ (daily_fast_insulin_sums df).length →
        (save_fast_insulin_use df).2 =
          some ((((daily_fast_insulin_sums df).map fun x =>
              (x - meanQ (daily_fast_insulin_sums df)) ^ 2).sum) /
            (((daily_fast_insulin_sums df).length : ℚ) - 1))) := by
  constructor
  · intro hall
    obtain ⟨e0, df1, rfl⟩ := List.exists_cons_of_ne_nil hne
    have hdedup : ((e0 :: df1).map fun e => dayOf e.date).dedup = [dayOf e0.date] :=
      dedup_const (by simp) (by
        intro x hx
        obtain ⟨e, he, rfl⟩ := List.mem_map.mp hx
        exact hall e he e0 (by simp))
    rw [save_fast_insulin_use, if_neg hne]
    show sampleVar? (daily_fast_insulin_sums (e0 :: df1)) = none
    rw [daily_fast_insulin_sums, groupby, hdedup]
    simp [sampleVar?, List.insertionSort, List.orderedInsert]
  · intro hlen
    rw [save_fast_insulin_use, if_neg hne]
    show sampleVar? (daily_fast_insulin_sums df) = _
    rw [sampleVar?, if_neg (by omega)]

/-- Witness for C5 (amended): a view whose two rows fall on the same calendar
day reports an undefined daily fast-insulin standard deviation. -/
theorem fast_insulin_std_sample_formula_example :
    (save_fast_insulin_use [entryGlucose100, entryNoGlucose]).2 = none :=
  (fast_insulin_std_sample_formula [entryGlucose100, entryNoGlucose] (by simp)).1
    (by decide)

unseal process_lines in
/-- C6: the code raises KeyError on an input with zero entry lines (the claim
and the repository's own tests expect a structurally valid empty Record Set):
the model returns `none` both for an empty input and for a food-only input. -/
theorem parse_csv_zero_entries_fails :
    parse_csv [] = none ∧
      parse_csv ["food;\"apple\";;\"apple\";\"14\""] = none := by decide

/-- C7: the estimated HbA1c of a view is `(mean + 46.7) / 28.7` over its
defined glucose values when one is present, and an explicit undefined value
when none is; `save_hba1c` applies this to the most recent 90 days. -/
theorem estimated_hba1c_spec (view : List Entry) :
    (definedGlucose view ≠ [] →
        estimated_hba1c view =
          some ((meanQ (definedGlucose view) + 467 / 10) / (287 / 10))) ∧
      (definedGlucose view = [] → estimated_hba1c view = none) ∧
      save_hba1c view = estimated_hba1c (last_x_days view 90) := by
  refine ⟨?_, ?_, rfl⟩
  · intro hne
    rw [estimated_hba1c, if_neg hne]
  · intro he
    rw [estimated_hba1c, if_pos he]

/-- Witness for C7 at a one-row view with a defined glucose value. -/
theorem estimated_hba1c_spec_example :
    estimated_hba1c [entryGlucose100] =
      some ((meanQ (definedGlucose [entryGlucose100]) + 467 / 10) / (287 / 10)) :=
  (estimated_hba1c_spec [entryGlucose100]).1 (by decide)

/-- C8: `last_x_days` keeps exactly the rows whose timestamp exceeds the
view's maximum timestamp minus `x` days (the reference point is the view's
own maximum, not the wall clock), and any `x ≤ 0` empties the view. -/
theorem last_x_days_spec (df : List Entry) (x : ℤ) :
    last_x_days df x =
        df.filter (fun e =>
          decide ((series_max? (df.map Entry.date)).getD 0 - Timedelta_days x < e.date)) ∧
      (x ≤ 0 → last_x_days df x = []) := by
  constructor
  · rw [last_x_days]
    cases hm : series_max? (df.map Entry.date) with
    | none =>
      obtain rfl : df = [] := List.map_eq_nil_iff.mp (series_max?_eq_none.mp hm)
      simp
    | some m =>
      simp only [Option.getD_some]
      refine List.filter_congr ?_
      intro e he
      refine decide_eq_decide.mpr ?_
      simp only [Timedelta_days]
      omega
  · intro hx
    rw [last_x_days]
    cases hm : series_max? (df.map Entry.date) with
    | none => rfl
    | some m =>
      refine List.filter_eq_nil_iff.mpr ?_
      intro e he
      have hub : e.date ≤ m := series_max?_is_ub hm e.date (List.mem_map_of_mem _ he)
      simp only [Timedelta_days, decide_eq_true_eq, not_lt]
      omega

/-- Witness for C8: `x = 0` empties a concrete two-row view. -/
theorem last_x_days_spec_example :
    last_x_days [entryGlucose100, entryNoGlucose] 0 = [] :=
  (last_x_days_spec [entryGlucose100, entryNoGlucose] 0).2 (by decide)

unseal process_lines in
/-- Counterexample for C9: a second `food` line for the already-registered
name `apple` (14 g/100g) overwrites it with 20 g/100g, and the later
`foodEaten` lookup sees 20, not the first-registered 14: the catalog entry
is mutated, the meal records 100 g × 20/100 = 20 g. -/
theorem food_catalog_overwrite_cex :
    process_lines [] c9lines = some ([("apple".toList, 20)], [c9raw]) := by decide

/-- C9 (amended): the food catalog is built by last-writer-wins upsert: after
a successful scan, the value of every food name is that of the last `food`
line registering it (or its prior value when no such line exists), so every
`foodEaten` lookup sees the most recent registration, which a later `food`
line with the same name may overwrite. -/
theorem food_catalog_last_registration (foods : Dict) (ls : List Line)
    (p : Dict × List RawEntry) (h : process_lines foods ls = some p) (k : List Char) :
    dictGet? k p.1 = (lastFoodVal k ls).or (dictGet? k foods) :=
  process_lines_catalog foods ls h k

unseal process_lines in
/-- Witness for C9 (amended) at the duplicate-registration input. -/
theorem food_catalog_last_registration_example :
    dictGet? ("apple".toList) [("apple".toList, 20)] =
      (lastFoodVal ("apple".toList) c9lines).or (dictGet? ("apple".toList) []) :=
  food_catalog_last_registration [] c9lines ([("apple".toList, 20)], [c9raw])
    (by decide) ("apple".toList)

/-- C10: for every numeric column and any bounds, `col_lims` removes every
row whose value in that column is missing (a missing value satisfies neither
bound comparison); in particular, the default-bounds glucose filter excludes
the entry with no glucose measurement. -/
theorem col_lims_excludes_missing (df : List Entry) (column : Entry → Option ℚ)
    (lower_bound upper_bound : ℚ) :
    ((col_lims df column lower_bound upper_bound).all fun e =>
        (column e).isSome) = true ∧
      col_lims [entryNoGlucose, entryGlucose100] glucose_col 0 9999 =
        [entryGlucose100] := by
  constructor
  · rw [List.all_eq_true]
    intro e he
    simp only [col_lims] at he
    have hp := (List.mem_filter.mp he).2
    cases hc : column e with
    | some v => simp [hc]
    | none =>
      rw [hc] at hp
      simp at hp
  · decide

end Glikoz
